import Mathlib

/-!
Verification of the `email` Go package (message builder + SMTP sender).

Strings are modelled as `List Char`; byte slices as `List Nat` (each entry a
byte value). Go maps are modelled as association lists carrying the map's
iteration snapshot. `time.Now()` is modelled as an explicit date-string
parameter to `Bytes`.
-/

namespace Email

abbrev Str := List Char

def str (s : String) : Str := s.data

/-- An email attachment (`type Attachment struct`). -/
structure Attachment where
  Filename : Str
  Data : List Nat
  Inline : Bool
deriving DecidableEq, Repr

/-- An email message (`type Message struct`). `Attachments` is the map
`map[string]*Attachment`, modelled as an association list in iteration
order. -/
structure Message where
  From : Str
  To : List Str
  Cc : List Str
  Bcc : List Str
  ReplyTo : Str
  Subject : Str
  Body : Str
  BodyContentType : Str
  Attachments : List (Str × Attachment)
deriving DecidableEq, Repr

/-- `filepath.Split(file)` second component: everything after the final
path separator. -/
def basename (file : Str) : Str :=
  (file.reverse.takeWhile (fun c => c ≠ '/')).reverse

/-- Go map assignment `m[k] = v`: replace the binding if the key is present,
otherwise add a new binding. -/
def mapInsert (l : List (Str × Attachment)) (k : Str) (v : Attachment) :
    List (Str × Attachment) :=
  match l with
  | [] => [(k, v)]
  | (k2, v2) :: rest => if k2 = k then (k, v) :: rest else (k2, v2) :: mapInsert rest k v

/-- Go map lookup `m[k]`. -/
def mapLookup (l : List (Str × Attachment)) (k : Str) : Option Attachment :=
  match l with
  | [] => none
  | (k2, v2) :: rest => if k2 = k then some v2 else mapLookup rest k

/-- `func (m *Message) attach(file string, inline bool) error`, modelled at a
successful `ioutil.ReadFile` whose contents are `data`. -/
def Message.attach (m : Message) (file : Str) (inline : Bool) (data : List Nat) : Message :=
  let filename := basename file
  { m with Attachments := mapInsert m.Attachments filename ⟨filename, data, inline⟩ }

/-- `func (m *Message) Attach(file string) error` (successful read). -/
def Message.Attach (m : Message) (file : Str) (data : List Nat) : Message :=
  m.attach file false data

/-- `func (m *Message) Inline(file string) error` (successful read). -/
def Message.Inline (m : Message) (file : Str) (data : List Nat) : Message :=
  m.attach file true data

/-- `func newMessage(subject string, body string, bodyContentType string)`. -/
def newMessage (subject : Str) (body : Str) (bodyContentType : Str) : Message :=
  { From := [], To := [], Cc := [], Bcc := [], ReplyTo := []
    Subject := subject, Body := body, BodyContentType := bodyContentType
    Attachments := [] }

/-- `func NewMessage(subject string, body string) *Message`. -/
def NewMessage (subject : Str) (body : Str) : Message :=
  newMessage subject body (str "text/plain")

/-- `func NewHTMLMessage(subject string, body string) *Message`. -/
def NewHTMLMessage (subject : Str) (body : Str) : Message :=
  newMessage subject body (str "text/html")

/-- `func (m *Message) Tolist() []string`: `To`, then each `Cc` appended,
then each `Bcc` appended. -/
def Message.Tolist (m : Message) : List Str :=
  let tolist := m.To
  let tolist2 := m.Cc.foldl (fun acc cc => acc ++ [cc]) tolist
  m.Bcc.foldl (fun acc bcc => acc ++ [bcc]) tolist2

/-! ## The LOGIN authentication mechanism -/

/-- `type loginAuth struct`. -/
structure loginAuth where
  username : Str
  password : Str
  host : Str
deriving DecidableEq, Repr

/-- `func LoginAuth(username, password, host string) smtp.Auth`. -/
def LoginAuth (username password host : Str) : loginAuth :=
  ⟨username, password, host⟩

/-- The part of `smtp.ServerInfo` that `loginAuth` reads. -/
structure ServerInfo where
  Name : Str
  TLS : Bool
  Auth : List Str
deriving DecidableEq, Repr

/-- The advertisement scan inside `loginAuth.Start`: whether some advertised
mechanism equals `"LOGIN"`. -/
def advertisedLOGIN (mechs : List Str) : Bool :=
  match mechs with
  | [] => false
  | mech :: rest => if mech = str "LOGIN" then true else advertisedLOGIN rest

/-- `func (a *loginAuth) Start(server *smtp.ServerInfo) (string, []byte, error)`.
The triple is (protocol name, initial response, error); the initial response
is `nil` (`none`) on every path of the source. -/
def loginAuth.Start (a : loginAuth) (server : ServerInfo) :
    Str × Option (List Nat) × Option Str :=
  if server.TLS = false ∧ advertisedLOGIN server.Auth = false then
    ([], none, some (str "LoginAuth: Unencrypted connection"))
  else if server.Name ≠ a.host then
    ([], none, some (str "LoginAuth: Wrong host name"))
  else
    (str "LOGIN", none, none)

/-- ASCII lowering, modelling `strings.ToLower` on the challenges involved. -/
def toLowerStr (s : Str) : Str := s.map Char.toLower

/-- `strings.TrimSuffix(s, suf)`: drop `suf` from the end when present. -/
def trimSuffix (s suf : Str) : Str :=
  if suf.isSuffixOf s then s.take (s.length - suf.length) else s

/-- `func (a *loginAuth) Next(fromServer []byte, more bool) ([]byte, error)`.
The pair is (response bytes, error); the response is modelled as a `Str`. -/
def loginAuth.Next (a : loginAuth) (fromServer : Str) (more : Bool) :
    Option Str × Option Str :=
  if more = false then (none, none)
  else
    let command := toLowerStr (trimSuffix fromServer (str ":"))
    if command = str "username" then (some a.username, none)
    else if command = str "password" then (some a.password, none)
    else (none, some (str "LoginAuth: unexpected server challenge: " ++ command))

/-! ## Message serialization (`Bytes`) -/

/-- The fixed multipart boundary of `Message.Bytes`. -/
def boundary : Str := str "f46d043c813270fc6b04c2d223da"

/-- The standard base64 alphabet (`encoding/base64.StdEncoding`). -/
def b64Alphabet : Str :=
  str "ABCDEFGHIJKLMNOPQRSTUVWXYZabcdefghijklmnopqrstuvwxyz0123456789+/"

def b64Char (n : Nat) : Char := b64Alphabet.getD n 'A'

/-- Standard base64 with `=` padding (`base64.StdEncoding.Encode`). -/
def base64Encode : List Nat → Str
  | [] => []
  | [a] => [b64Char (a / 4), b64Char (a % 4 * 16), '=', '=']
  | [a, b] => [b64Char (a / 4), b64Char (a % 4 * 16 + b / 16), b64Char (b % 16 * 4), '=']
  | a :: b :: c :: rest =>
      [b64Char (a / 4), b64Char (a % 4 * 16 + b / 16),
       b64Char (b % 16 * 4 + c / 64), b64Char (c % 64)] ++ base64Encode rest

/-- The line-wrapping loop of `Message.Bytes`: write each byte `b[i]` and a
CRLF whenever `(i+1) % 76 == 0`. -/
def wrapLoop : Str → Nat → Str
  | [], _ => []
  | b :: rest, i =>
      b :: ((if (i + 1) % 76 = 0 then ['\r', '\n'] else []) ++ wrapLoop rest (i + 1))

/-- `strings.Join(l, ",")`. -/
def joinComma (l : List Str) : Str := (l.intersperse (str ",")).flatten

/-- The header block written by `Message.Bytes` before any MIME content:
From, Date (the `t` parameter stands for `time.Now()` formatted), To,
optional Cc, Subject, optional Reply-To, MIME-Version. -/
def headersPart (t : Str) (m : Message) : Str :=
  str "From: " ++ m.From ++ str "\r\n" ++
  str "Date: " ++ t ++ str "\r\n" ++
  str "To: " ++ joinComma m.To ++ str "\r\n" ++
  (if m.Cc.length > 0 then str "Cc: " ++ joinComma m.Cc ++ str "\r\n" else []) ++
  str "Subject: " ++ m.Subject ++ str "\r\n" ++
  (if m.ReplyTo.length > 0 then str "Reply-To: " ++ m.ReplyTo ++ str "\r\n" else []) ++
  str "MIME-Version: 1.0\r\n"

/-- The content written for one attachment between its boundary markers:
inline attachments carry their raw bytes, others base64 wrapped at 76. -/
def attachmentBody (a : Attachment) : Str :=
  if a.Inline then
    str "Content-Type: message/rfc822\r\n" ++
    (str "Content-Disposition: inline; filename=\"" ++ a.Filename ++ str "\"\r\n\r\n") ++
    a.Data.map Char.ofNat
  else
    str "Content-Type: application/octet-stream\r\n" ++
    str "Content-Transfer-Encoding: base64\r\n" ++
    (str "Content-Disposition: attachment; filename=\"" ++ a.Filename ++ str "\"\r\n\r\n") ++
    wrapLoop (base64Encode a.Data) 0

/-- One iteration of the attachment loop of `Message.Bytes`. -/
def attachmentPart (a : Attachment) : Str :=
  str "\r\n\r\n--" ++ boundary ++ str "\r\n" ++ attachmentBody a ++
  str "\r\n--" ++ boundary

/-- `func (m *Message) Bytes() []byte`; `t` stands for the formatted
`time.Now()`. -/
def Message.Bytes (t : Str) (m : Message) : Str :=
  headersPart t m ++
  (if m.Attachments.length > 0 then
    str "Content-Type: multipart/mixed; boundary=" ++ boundary ++ str "\r\n" ++
    str "--" ++ boundary ++ str "\r\n"
   else []) ++
  str "Content-Type: " ++ m.BodyContentType ++ str "; charset=utf-8\r\n\r\n" ++
  m.Body ++ str "\r\n" ++
  (if m.Attachments.length > 0 then
    ((m.Attachments.map (fun kv => attachmentPart kv.2)).flatten ++ str "--")
   else [])

/-! ## Spec-side definition of the base64 line wrapping

Modelled from the spec: base64 output broken into lines of 76 characters,
a CRLF after every (full) 76-character group. -/

def chunksOf76 (s : Str) : List Str :=
  if h : s = [] then [] else s.take 76 :: chunksOf76 (s.drop 76)
termination_by s.length
decreasing_by
  simp only [List.length_drop]
  have := List.length_pos.mpr h
  omega

/-- Modelled from the spec: `s` split into 76-character lines, each full
76-character line followed by CRLF. -/
def specWrap76 (s : Str) : Str :=
  ((chunksOf76 s).map (fun c => if c.length = 76 then c ++ ['\r', '\n'] else c)).flatten

/-! ## The `Send` function

`Send` drives an `smtp.Client`; the client/server pair is abstracted as an
oracle giving each protocol step's outcome, and `Send` additionally returns
the trace of steps it performed, in order. `authSet` models `auth != nil`. -/

inductive SmtpStep where
  | dial
  | hello
  | startTLS
  | auth
  | mail
  | rcpt (rcptTo : Str)
  | data
  | write
  | close
  | quit
deriving DecidableEq, Repr

/-- The outcomes the SMTP server/client produces for each step of `Send`,
and which extensions it advertises. -/
structure SmtpServer where
  dialErr : Option Str
  helloErr : Option Str
  hasStartTLS : Bool
  startTLSErr : Option Str
  hasAuth : Bool
  authErr : Option Str
  mailErr : Option Str
  rcptErr : Str → Option Str
  dataErr : Option Str
  writeErr : Option Str
  closeErr : Option Str
  quitErr : Option Str

/-- Result of one protocol action: the steps performed and the error, if any. -/
abbrev SendResult := List SmtpStep × Option Str

/-- Perform one step with the given outcome. -/
def doStep (s : SmtpStep) (e : Option Str) : SendResult := ([s], e)

/-- Go's `if err = step(); err != nil { return err }` sequencing: run the
continuation only when no error occurred yet. -/
def stepBind (x : SendResult) (k : Unit → SendResult) : SendResult :=
  match x.2 with
  | some e => (x.1, some e)
  | none => ((x.1 ++ (k ()).1), (k ()).2)

/-- The `for _, to := range m.Tolist()` loop issuing one `Rcpt` per
recipient, stopping at the first error. -/
def sendRcpts (srv : SmtpServer) : List Str → SendResult
  | [] => ([], none)
  | t :: rest =>
    match srv.rcptErr t with
    | some e => ([SmtpStep.rcpt t], some e)
    | none =>
      ((SmtpStep.rcpt t :: (sendRcpts srv rest).1), (sendRcpts srv rest).2)

/-- `func Send(addr string, auth smtp.Auth, m *Message, skipverify bool) error`:
Dial, Hello, StartTLS when advertised, Auth when `auth != nil` and AUTH is
advertised, Mail, one Rcpt per `Tolist()` entry, Data, write, close, Quit,
returning at the first error. -/
def Send (srv : SmtpServer) (authSet : Bool) (m : Message) : SendResult :=
  stepBind (doStep SmtpStep.dial srv.dialErr) fun _ =>
  stepBind (doStep SmtpStep.hello srv.helloErr) fun _ =>
  stepBind (if srv.hasStartTLS then doStep SmtpStep.startTLS srv.startTLSErr
            else ([], none)) fun _ =>
  stepBind (if authSet then
              (if srv.hasAuth then doStep SmtpStep.auth srv.authErr else ([], none))
            else ([], none)) fun _ =>
  stepBind (doStep SmtpStep.mail srv.mailErr) fun _ =>
  stepBind (sendRcpts srv m.Tolist) fun _ =>
  stepBind (doStep SmtpStep.data srv.dataErr) fun _ =>
  stepBind (doStep SmtpStep.write srv.writeErr) fun _ =>
  stepBind (doStep SmtpStep.close srv.closeErr) fun _ =>
  doStep SmtpStep.quit srv.quitErr

/-! ## Spec-side description of `Send`

Modelled from the spec: the steps are performed in a fixed order — Dial,
Hello, StartTLS only if advertised, Auth only if requested and advertised,
Mail, Rcpt per recipient, Data/write/close, Quit — and the first error is
returned immediately without performing any later step. -/

/-- The outcome the server assigns to a given step. -/
def stepErr (srv : SmtpServer) : SmtpStep → Option Str
  | SmtpStep.dial => srv.dialErr
  | SmtpStep.hello => srv.helloErr
  | SmtpStep.startTLS => srv.startTLSErr
  | SmtpStep.auth => srv.authErr
  | SmtpStep.mail => srv.mailErr
  | SmtpStep.rcpt t => srv.rcptErr t
  | SmtpStep.data => srv.dataErr
  | SmtpStep.write => srv.writeErr
  | SmtpStep.close => srv.closeErr
  | SmtpStep.quit => srv.quitErr

/-- Modelled from the spec: the order the steps are meant to happen in. -/
def plannedSteps (srv : SmtpServer) (authSet : Bool) (m : Message) : List SmtpStep :=
  [SmtpStep.dial] ++ [SmtpStep.hello] ++
  (if srv.hasStartTLS then [SmtpStep.startTLS] else []) ++
  (if authSet && srv.hasAuth then [SmtpStep.auth] else []) ++
  [SmtpStep.mail] ++
  m.Tolist.map SmtpStep.rcpt ++
  [SmtpStep.data] ++ [SmtpStep.write] ++ [SmtpStep.close] ++ [SmtpStep.quit]

/-- Modelled from the spec: run the listed steps in order, stopping at and
returning the first error. -/
def runSteps (srv : SmtpServer) : List SmtpStep → SendResult
  | [] => ([], none)
  | s :: rest =>
    match stepErr srv s with
    | some e => ([s], some e)
    | none => ((s :: (runSteps srv rest).1), (runSteps srv rest).2)

def isRcpt : SmtpStep → Bool
  | SmtpStep.rcpt _ => true
  | _ => false

/-- One successful `Attach` (when `inline` is `false`) or `Inline` (when
`inline` is `true`) call: its file path and the bytes read from it. -/
structure AttachCall where
  file : Str
  inline : Bool
  data : List Nat
deriving DecidableEq, Repr

/-- Apply a sequence of successful attach calls to a message. -/
def applyCalls (cs : List AttachCall) (m : Message) : Message :=
  cs.foldl (fun acc c => acc.attach c.file c.inline c.data) m

/-! ## Concrete example inputs -/

/-- A server on which every step of `Send` succeeds. -/
def srvOk : SmtpServer :=
  ⟨none, none, true, none, true, none, none, fun _ => none, none, none, none, none⟩

/-- A message with one recipient in each of To, Cc and Bcc. -/
def msgRecipients : Message :=
  { NewMessage (str "s") (str "b") with
    To := [str "a"], Cc := [str "c"], Bcc := [str "d"] }

/-- A message carrying one non-inline attachment. -/
def msgWithAttachment : Message :=
  { NewMessage (str "s") (str "b") with
    Attachments := [(str "f.bin", ⟨str "f.bin", [0, 1, 2], false⟩)] }

/-- A message carrying one inline attachment. -/
def msgWithInline : Message :=
  { NewMessage (str "s") (str "b") with
    Attachments := [(str "i.txt", ⟨str "i.txt", [104, 105], true⟩)] }

/-! ## Helper lemmas for the LOGIN mechanism -/

lemma advertisedLOGIN_iff (mechs : List Str) :
    advertisedLOGIN mechs = true ↔ str "LOGIN" ∈ mechs := by
  induction mechs with
  | nil => simp [advertisedLOGIN]
  | cons mech rest ih =>
    by_cases h : mech = str "LOGIN"
    · subst h; simp [advertisedLOGIN]
    · simp [advertisedLOGIN, h, ih, Ne.symm h]

lemma start_unencrypted (a : loginAuth) (server : ServerInfo)
    (htls : server.TLS = false) (hadv : str "LOGIN" ∉ server.Auth) :
    a.Start server = ([], none, some (str "LoginAuth: Unencrypted connection")) := by
  have hb : advertisedLOGIN server.Auth = false := by
    rcases h : advertisedLOGIN server.Auth with _ | _
    · rfl
    · exact absurd ((advertisedLOGIN_iff server.Auth).mp h) hadv
  simp [loginAuth.Start, htls, hb]

lemma start_hostcheck (a : loginAuth) (server : ServerInfo)
    (hpass : server.TLS = true ∨ str "LOGIN" ∈ server.Auth) :
    a.Start server =
      (if server.Name = a.host then (str "LOGIN", none, none)
       else ([], none, some (str "LoginAuth: Wrong host name"))) := by
  have hb : ¬ (server.TLS = false ∧ advertisedLOGIN server.Auth = false) := by
    rcases hpass with h | h
    · simp [h]
    · have := (advertisedLOGIN_iff server.Auth).mpr h
      simp [this]
  by_cases hn : server.Name = a.host
  · simp [loginAuth.Start, hb, hn]
  · simp [loginAuth.Start, hb, hn]

/-! ## Helper lemmas for `Send` -/

lemma stepBind_assoc (x : SendResult) (k1 k2 : Unit → SendResult) :
    stepBind (stepBind x k1) k2 = stepBind x (fun _ => stepBind (k1 ()) k2) := by
  rcases x with ⟨tr, e⟩
  cases e with
  | some e => simp [stepBind]
  | none =>
    cases h : (k1 ()).2 with
    | some e => simp [stepBind, h]
    | none => simp [stepBind, h, List.append_assoc]

lemma stepBind_nil (k : Unit → SendResult) : stepBind ([], none) k = k () := by
  simp [stepBind]

lemma stepBind_nil_right (x : SendResult) : stepBind x (fun _ => ([], none)) = x := by
  rcases x with ⟨tr, e⟩
  cases e <;> simp [stepBind]

lemma runSteps_cons (srv : SmtpServer) (s : SmtpStep) (rest : List SmtpStep) :
    runSteps srv (s :: rest) =
      stepBind (doStep s (stepErr srv s)) (fun _ => runSteps srv rest) := by
  cases h : stepErr srv s with
  | some e => simp [runSteps, h, stepBind, doStep]
  | none => simp [runSteps, h, stepBind, doStep]

lemma runSteps_append (srv : SmtpServer) (a b : List SmtpStep) :
    runSteps srv (a ++ b) = stepBind (runSteps srv a) (fun _ => runSteps srv b) := by
  induction a with
  | nil => simp [runSteps, stepBind]
  | cons s rest ih =>
    cases h : stepErr srv s with
    | some e => simp [runSteps, h, stepBind]
    | none =>
      cases h2 : (runSteps srv rest).2 with
      | some e => simp [runSteps, h, stepBind, ih, h2]
      | none => simp [runSteps, h, stepBind, ih, h2]

lemma sendRcpts_eq (srv : SmtpServer) (l : List Str) :
    sendRcpts srv l = runSteps srv (l.map SmtpStep.rcpt) := by
  induction l with
  | nil => simp [sendRcpts, runSteps]
  | cons t rest ih =>
    cases h : srv.rcptErr t with
    | some e =>
      simp [sendRcpts, runSteps, h, stepErr, ih]
    | none =>
      simp [sendRcpts, runSteps, h, stepErr, ih]

lemma runSteps_nil (srv : SmtpServer) : runSteps srv [] = ([], none) := rfl

lemma send_eq_run (srv : SmtpServer) (authSet : Bool) (m : Message) :
    Send srv authSet m = runSteps srv (plannedSteps srv authSet m) := by
  cases hs : srv.hasStartTLS <;> cases ha : authSet <;> cases hb : srv.hasAuth <;>
    simp only [Send, plannedSteps, hs, ha, hb, Bool.and_self, Bool.true_and,
      Bool.false_and, Bool.and_true, Bool.and_false, Bool.false_eq_true,
      eq_self_iff_true, ite_true, ite_false, List.singleton_append,
      List.cons_append, List.nil_append, List.append_nil, runSteps_append,
      runSteps_cons, runSteps_nil, sendRcpts_eq, stepBind_assoc, stepBind_nil,
      stepBind_nil_right, stepErr]

lemma runSteps_success (srv : SmtpServer) (l : List SmtpStep)
    (h : (runSteps srv l).2 = none) : (runSteps srv l).1 = l := by
  induction l with
  | nil => simp [runSteps]
  | cons s rest ih =>
    cases hs : stepErr srv s with
    | some e => simp [runSteps, hs] at h
    | none =>
      simp only [runSteps, hs] at h ⊢
      rw [ih h]

lemma foldl_append_singleton (l acc : List Str) :
    l.foldl (fun a x => a ++ [x]) acc = acc ++ l := by
  induction l generalizing acc with
  | nil => simp
  | cons x rest ih => simp [ih, List.append_assoc]

lemma tolist_eq (m : Message) : m.Tolist = m.To ++ m.Cc ++ m.Bcc := by
  simp [Message.Tolist, foldl_append_singleton, List.append_assoc]

lemma filter_planned (srv : SmtpServer) (authSet : Bool) (m : Message) :
    (plannedSteps srv authSet m).filter isRcpt = m.Tolist.map SmtpStep.rcpt := by
  have hcomp : (isRcpt ∘ SmtpStep.rcpt) = fun _ => true := funext (fun x => rfl)
  cases h : authSet && srv.hasAuth <;> cases hs : srv.hasStartTLS <;>
    simp [plannedSteps, h, hs, List.filter_append, isRcpt, List.filter_map, hcomp]

/-! ## The wrapping loop writes 76-character lines -/

lemma wrapLoop_mod (s : Str) : ∀ i j, i % 76 = j % 76 → wrapLoop s i = wrapLoop s j := by
  induction s with
  | nil => intro i j _; rfl
  | cons b rest ih =>
    intro i j h
    have h2 : (i + 1) % 76 = (j + 1) % 76 := by omega
    simp only [wrapLoop, h2, ih (i + 1) (j + 1) h2]

lemma wrapLoop_short (s : Str) : ∀ i, i % 76 + s.length ≤ 75 → wrapLoop s i = s := by
  induction s with
  | nil => intro i _; rfl
  | cons b rest ih =>
    intro i h
    simp only [List.length_cons] at h
    have h2 : ¬ ((i + 1) % 76 = 0) := by omega
    have h3 : (i + 1) % 76 + rest.length ≤ 75 := by omega
    simp [wrapLoop, h2, ih (i + 1) h3]

lemma wrapLoop_boundary (a : Str) : ∀ (b : Str) (i : Nat), a ≠ [] →
    i % 76 + a.length = 76 →
    wrapLoop (a ++ b) i = a ++ '\r' :: '\n' :: wrapLoop b 0 := by
  induction a with
  | nil => intro b i h _; exact absurd rfl h
  | cons c rest ih =>
    intro b i _ h
    simp only [List.length_cons] at h
    by_cases hr : rest = []
    · subst hr
      simp only [List.length_nil] at h
      have h0 : (i + 1) % 76 = 0 := by omega
      simp [wrapLoop, h0]
      exact wrapLoop_mod b (i + 1) 0 (by omega)
    · have hpos : 0 < rest.length := List.length_pos.mpr hr
      have h1 : ¬ ((i + 1) % 76 = 0) := by omega
      have h2 : (i + 1) % 76 + rest.length = 76 := by omega
      simp [wrapLoop, h1, ih b (i + 1) hr h2]

lemma chunksOf76_nil : chunksOf76 [] = [] := by
  rw [chunksOf76]
  simp

lemma chunksOf76_cons (s : Str) (h : s ≠ []) :
    chunksOf76 s = s.take 76 :: chunksOf76 (s.drop 76) := by
  rw [chunksOf76]
  simp [h]

lemma wrapLoop_eq_aux : ∀ (n : Nat) (s : Str), s.length ≤ 76 * n →
    wrapLoop s 0 = specWrap76 s := by
  intro n
  induction n with
  | zero =>
    intro s hs
    have hnil : s = [] := List.length_eq_zero.mp (by omega)
    subst hnil
    simp [wrapLoop, specWrap76, chunksOf76_nil]
  | succ n ih =>
    intro s hs
    by_cases hempty : s = []
    · subst hempty
      simp [wrapLoop, specWrap76, chunksOf76_nil]
    by_cases hlen : s.length ≤ 75
    · have h1 : wrapLoop s 0 = s := wrapLoop_short s 0 (by omega)
      have h2 : s.drop 76 = [] := List.drop_eq_nil_of_le (by omega)
      have h3 : s.take 76 = s := List.take_of_length_le (by omega)
      have h4 : ¬ (s.length = 76) := by omega
      rw [h1]
      simp [specWrap76, chunksOf76_cons s hempty, chunksOf76_nil, h2, h3, h4]
    · have hsplit : s.take 76 ++ s.drop 76 = s := List.take_append_drop 76 s
      have htlen : (s.take 76).length = 76 := by
        rw [List.length_take]
        omega
      have hne : s.take 76 ≠ [] := by
        intro hc
        rw [hc] at htlen
        simp at htlen
      have hwrap : wrapLoop s 0 = s.take 76 ++ '\r' :: '\n' :: wrapLoop (s.drop 76) 0 := by
        conv_lhs => rw [← hsplit]
        exact wrapLoop_boundary (s.take 76) (s.drop 76) 0 hne (by simp [htlen])
      have hih : wrapLoop (s.drop 76) 0 = specWrap76 (s.drop 76) := by
        apply ih
        simp only [List.length_drop]
        omega
      rw [hwrap, hih]
      conv_rhs => rw [specWrap76, chunksOf76_cons s hempty]
      simp [specWrap76, htlen, List.append_assoc]

lemma wrapLoop_eq_specWrap76 (s : Str) : wrapLoop s 0 = specWrap76 s :=
  wrapLoop_eq_aux s.length s (by omega)

/-! ## Infix decomposition of the serialized attachments -/

lemma flatten_map_infix {β : Type} (f : β → Str) (l : List β) (x : β) (hx : x ∈ l) :
    ∃ pre post, (l.map f).flatten = pre ++ f x ++ post := by
  induction l with
  | nil => simp at hx
  | cons y rest ih =>
    rcases List.mem_cons.mp hx with hxy | hx2
    · subst hxy
      exact ⟨[], (rest.map f).flatten, by simp⟩
    · obtain ⟨p, q, hpq⟩ := ih hx2
      exact ⟨f y ++ p, q, by simp [hpq, List.append_assoc]⟩

lemma bytes_attachment_infix (t : Str) (m : Message) (kv : Str × Attachment)
    (hkv : kv ∈ m.Attachments) :
    ∃ pre post, m.Bytes t = pre ++ attachmentBody kv.2 ++ post := by
  have hlen : 0 < m.Attachments.length :=
    List.length_pos.mpr (List.ne_nil_of_mem hkv)
  obtain ⟨p, q, hpq⟩ :=
    flatten_map_infix (fun kv2 => attachmentPart kv2.2) m.Attachments kv hkv
  refine ⟨headersPart t m ++
      (str "Content-Type: multipart/mixed; boundary=" ++ boundary ++ str "\r\n" ++
       str "--" ++ boundary ++ str "\r\n") ++
      (str "Content-Type: " ++ m.BodyContentType ++ str "; charset=utf-8\r\n\r\n" ++
       m.Body ++ str "\r\n") ++
      p ++ (str "\r\n\r\n--" ++ boundary ++ str "\r\n"),
    (str "\r\n--" ++ boundary) ++ q ++ str "--", ?_⟩
  simp only [Message.Bytes]
  rw [if_pos hlen, if_pos hlen, hpq]
  simp [attachmentPart, List.append_assoc]

/-! ## The attachments map invariant -/

lemma mapInsert_mem (l : List (Str × Attachment)) (k : Str) (v : Attachment)
    (kv : Str × Attachment) (h : kv ∈ mapInsert l k v) : kv = (k, v) ∨ kv ∈ l := by
  induction l with
  | nil =>
    simp [mapInsert] at h
    left
    exact h
  | cons p rest ih =>
    rcases p with ⟨k2, v2⟩
    by_cases hk : k2 = k
    · simp only [mapInsert, hk, if_true, List.mem_cons, ite_true] at h
      rcases h with h | h
      · left; exact h
      · right; exact List.mem_cons_of_mem _ h
    · simp only [mapInsert, hk, ite_false, List.mem_cons] at h
      rcases h with h | h
      · right
        rw [h]
        exact List.mem_cons_self _ _
      · rcases ih h with h2 | h2
        · left; exact h2
        · right; exact List.mem_cons_of_mem _ h2

lemma mapInsert_keys_sub (l : List (Str × Attachment)) (k : Str) (v : Attachment)
    (x : Str) (hx : x ∈ (mapInsert l k v).map Prod.fst) :
    x = k ∨ x ∈ l.map Prod.fst := by
  rcases List.mem_map.mp hx with ⟨kv, hkv, hfst⟩
  rcases mapInsert_mem l k v kv hkv with h | h
  · left
    rw [h] at hfst
    exact hfst.symm
  · right
    exact List.mem_map.mpr ⟨kv, h, hfst⟩

lemma mapInsert_keys_nodup (l : List (Str × Attachment)) (k : Str) (v : Attachment)
    (h : (l.map Prod.fst).Nodup) : ((mapInsert l k v).map Prod.fst).Nodup := by
  induction l with
  | nil => simp [mapInsert]
  | cons p rest ih =>
    rcases p with ⟨k2, v2⟩
    simp only [List.map_cons, List.nodup_cons] at h
    by_cases hk : k2 = k
    · subst hk
      simp only [mapInsert, if_true, ite_true]
      simp only [List.map_cons, List.nodup_cons]
      exact ⟨h.1, h.2⟩
    · simp only [mapInsert, hk, ite_false, List.map_cons, List.nodup_cons]
      constructor
      · intro hc
        rcases mapInsert_keys_sub rest k v k2 hc with h2 | h2
        · exact hk h2
        · exact h.1 h2
      · exact ih h.2

lemma mapLookup_mapInsert (l : List (Str × Attachment)) (k : Str) (v : Attachment) :
    mapLookup (mapInsert l k v) k = some v := by
  induction l with
  | nil => simp [mapInsert, mapLookup]
  | cons p rest ih =>
    rcases p with ⟨k2, v2⟩
    by_cases hk : k2 = k
    · simp [mapInsert, hk, mapLookup]
    · simp [mapInsert, hk, mapLookup, ih]

lemma applyCalls_mem (cs : List AttachCall) (m0 : Message) (kv : Str × Attachment)
    (h : kv ∈ (applyCalls cs m0).Attachments) :
    kv ∈ m0.Attachments ∨
      ∃ c ∈ cs, kv = (basename c.file, ⟨basename c.file, c.data, c.inline⟩) := by
  induction cs generalizing m0 with
  | nil =>
    left
    simpa [applyCalls] using h
  | cons c rest ih =>
    have h2 : kv ∈ (applyCalls rest (m0.attach c.file c.inline c.data)).Attachments := by
      simpa [applyCalls] using h
    rcases ih (m0.attach c.file c.inline c.data) h2 with h3 | h3
    · have h4 := mapInsert_mem m0.Attachments (basename c.file)
        ⟨basename c.file, c.data, c.inline⟩ kv (by simpa [Message.attach] using h3)
      rcases h4 with h5 | h5
      · right
        exact ⟨c, List.mem_cons_self _ _, h5⟩
      · left
        exact h5
    · rcases h3 with ⟨c2, hc2, hkv⟩
      right
      exact ⟨c2, List.mem_cons_of_mem _ hc2, hkv⟩

lemma applyCalls_keys_nodup (cs : List AttachCall) (m0 : Message)
    (h : (m0.Attachments.map Prod.fst).Nodup) :
    ((applyCalls cs m0).Attachments.map Prod.fst).Nodup := by
  induction cs generalizing m0 with
  | nil => simpa [applyCalls] using h
  | cons c rest ih =>
    have h2 : ((m0.attach c.file c.inline c.data).Attachments.map Prod.fst).Nodup := by
      simpa [Message.attach] using
        mapInsert_keys_nodup m0.Attachments (basename c.file)
          ⟨basename c.file, c.data, c.inline⟩ h
    simpa [applyCalls] using ih (m0.attach c.file c.inline c.data) h2

lemma applyCalls_lookup_last (pre : List AttachCall) (c : AttachCall) (m0 : Message) :
    mapLookup (applyCalls (pre ++ [c]) m0).Attachments (basename c.file) =
      some ⟨basename c.file, c.data, c.inline⟩ := by
  have h : applyCalls (pre ++ [c]) m0 =
      (applyCalls pre m0).attach c.file c.inline c.data := by
    simp [applyCalls, List.foldl_append]
  rw [h]
  simpa [Message.attach] using
    mapLookup_mapInsert (applyCalls pre m0).Attachments (basename c.file)
      ⟨basename c.file, c.data, c.inline⟩

/-! ## The claims -/

/-- Claim C1: for every call of `Send`, the SMTP steps are performed in the
order Dial, Hello, then StartTLS only if the server advertises STARTTLS, then
Auth only if auth is non-nil and the server advertises AUTH, then Mail, then
Rcpt for each recipient, then Data/write/close, then Quit; and the first
error returned by any of these steps is returned immediately without
performing any later step (`runSteps` over `plannedSteps` is exactly that
behaviour). -/
theorem claim_send_step_order (srv : SmtpServer) (authSet : Bool) (m : Message) :
    Send srv authSet m = runSteps srv (plannedSteps srv authSet m) :=
  send_eq_run srv authSet m

/-- Claim C2: for every message with at least one attachment, `Bytes` frames
the message as multipart/mixed with the fixed boundary
`f46d043c813270fc6b04c2d223da`, and every non-inline attachment's data is
emitted as standard base64 broken into 76-character lines (a CRLF after
every 76th base64 character, which is what `specWrap76` produces). -/
theorem claim_bytes_multipart_base64 (t : Str) (m : Message)
    (hatt : m.Attachments ≠ []) :
    boundary = str "f46d043c813270fc6b04c2d223da" ∧
    (∃ tail, m.Bytes t = headersPart t m ++
        (str "Content-Type: multipart/mixed; boundary=" ++ boundary ++ str "\r\n" ++
         str "--" ++ boundary ++ str "\r\n") ++ tail) ∧
    (∀ kv ∈ m.Attachments, kv.2.Inline = false →
      ∃ pre post, m.Bytes t =
        pre ++ specWrap76 (base64Encode kv.2.Data) ++ post) := by
  have hlen : 0 < m.Attachments.length := List.length_pos.mpr hatt
  refine ⟨rfl, ?_, ?_⟩
  · refine ⟨str "Content-Type: " ++ m.BodyContentType ++ str "; charset=utf-8\r\n\r\n" ++
      m.Body ++ str "\r\n" ++
      ((m.Attachments.map (fun kv => attachmentPart kv.2)).flatten ++ str "--"), ?_⟩
    simp only [Message.Bytes]
    rw [if_pos hlen, if_pos hlen]
    simp [List.append_assoc]
  · intro kv hkv hinl
    obtain ⟨p, q, hpq⟩ := bytes_attachment_infix t m kv hkv
    have hbody : attachmentBody kv.2 =
        str "Content-Type: application/octet-stream\r\n" ++
        str "Content-Transfer-Encoding: base64\r\n" ++
        (str "Content-Disposition: attachment; filename=\"" ++ kv.2.Filename ++
         str "\"\r\n\r\n") ++
        specWrap76 (base64Encode kv.2.Data) := by
      rw [← wrapLoop_eq_specWrap76]
      simp [attachmentBody, hinl]
    refine ⟨p ++ (str "Content-Type: application/octet-stream\r\n" ++
        str "Content-Transfer-Encoding: base64\r\n" ++
        (str "Content-Disposition: attachment; filename=\"" ++ kv.2.Filename ++
         str "\"\r\n\r\n")), q, ?_⟩
    rw [hpq, hbody]
    simp [List.append_assoc]

/-- Witness for claim C2 at a concrete message with one non-inline
attachment. -/
theorem claim_bytes_multipart_base64_witness :
    msgWithAttachment.Attachments ≠ [] ∧
    (∃ pre post, msgWithAttachment.Bytes (str "DATE") =
      pre ++ specWrap76 (base64Encode [0, 1, 2]) ++ post) :=
  ⟨by decide,
   (claim_bytes_multipart_base64 (str "DATE") msgWithAttachment (by decide)).2.2
     (str "f.bin", ⟨str "f.bin", [0, 1, 2], false⟩) (by decide) rfl⟩

/-- Claim C3: `loginAuth.Start` returns the error
`LoginAuth: Unencrypted connection` whenever the connection is not TLS and
the server's advertised mechanisms do not include `LOGIN`; if the connection
is unencrypted but `LOGIN` is advertised, the check passes and the outcome
is decided by the host check alone. -/
theorem claim_start_unencrypted (a : loginAuth) (server : ServerInfo)
    (htls : server.TLS = false) :
    (str "LOGIN" ∉ server.Auth →
      a.Start server = ([], none, some (str "LoginAuth: Unencrypted connection"))) ∧
    (str "LOGIN" ∈ server.Auth →
      a.Start server =
        (if server.Name = a.host then (str "LOGIN", none, none)
         else ([], none, some (str "LoginAuth: Wrong host name")))) :=
  ⟨fun h => start_unencrypted a server htls h,
   fun h => start_hostcheck a server (Or.inr h)⟩

/-- Witness for claim C3: an unencrypted server that does not advertise
LOGIN is rejected. -/
theorem claim_start_unencrypted_witness :
    (LoginAuth (str "u") (str "p") (str "h")).Start ⟨str "h", false, []⟩ =
      ([], none, some (str "LoginAuth: Unencrypted connection")) :=
  (claim_start_unencrypted (LoginAuth (str "u") (str "p") (str "h"))
    ⟨str "h", false, []⟩ rfl).1 (by decide)

/-- Claim C4: for every server state that passes the encryption check,
`loginAuth.Start` returns the error `LoginAuth: Wrong host name` whenever
the server's name differs from the stored host, and otherwise returns the
mechanism name `LOGIN` with a nil initial response and no error. -/
theorem claim_start_hostcheck (a : loginAuth) (server : ServerInfo)
    (hpass : server.TLS = true ∨ str "LOGIN" ∈ server.Auth) :
    (server.Name ≠ a.host →
      a.Start server = ([], none, some (str "LoginAuth: Wrong host name"))) ∧
    (server.Name = a.host →
      a.Start server = (str "LOGIN", none, none)) := by
  have h := start_hostcheck a server hpass
  constructor
  · intro hn
    rw [h, if_neg hn]
  · intro hn
    rw [h, if_pos hn]

/-- Witness for claim C4: a TLS server with the matching name yields
`LOGIN` with no error. -/
theorem claim_start_hostcheck_witness :
    (LoginAuth (str "u") (str "p") (str "h")).Start ⟨str "h", true, []⟩ =
      (str "LOGIN", none, none) :=
  (claim_start_hostcheck (LoginAuth (str "u") (str "p") (str "h"))
    ⟨str "h", true, []⟩ (Or.inl rfl)).2 rfl

/-- Counterexample to claim C5 as stated: the challenge `USERNAME` is
neither the `Username:` prompt nor the `Password:` prompt, yet
`loginAuth.Next` answers it with the stored username and no error rather
than returning an error. -/
theorem claim_next_prompts_counterexample :
    (LoginAuth (str "u") (str "p") (str "h")).Next (str "USERNAME") true =
      (some (str "u"), none) ∧
    str "USERNAME" ≠ str "Username:" ∧ str "USERNAME" ≠ str "Password:" := by
  decide

/-- Claim C5 (amended): `loginAuth.Next` implements a two-step
challenge/response where the prompts are matched case-insensitively after
removing one trailing colon: when `more` is true and the challenge
normalizes to `username` it returns the stored username, when it
normalizes to `password` it returns the stored password, and for any other
challenge it returns an error; when `more` is false it returns nil with no
error. -/
theorem claim_next_prompts_amended (a : loginAuth) (s : Str) :
    (toLowerStr (trimSuffix s (str ":")) = str "username" →
      a.Next s true = (some a.username, none)) ∧
    (toLowerStr (trimSuffix s (str ":")) = str "password" →
      a.Next s true = (some a.password, none)) ∧
    (toLowerStr (trimSuffix s (str ":")) ≠ str "username" →
      toLowerStr (trimSuffix s (str ":")) ≠ str "password" →
      a.Next s true = (none, some (str "LoginAuth: unexpected server challenge: " ++
        toLowerStr (trimSuffix s (str ":"))))) ∧
    a.Next s false = (none, none) := by
  refine ⟨?_, ?_, ?_, ?_⟩
  · intro h
    simp [loginAuth.Next, h]
  · intro h
    have hne : ¬ (str "password" = str "username") := by decide
    simp [loginAuth.Next, h, hne]
  · intro h1 h2
    simp [loginAuth.Next, h1, h2]
  · simp [loginAuth.Next]

/-- Witness for claim C5 (amended) at the `Password:` prompt. -/
theorem claim_next_prompts_amended_witness :
    (LoginAuth (str "u") (str "p") (str "h")).Next (str "Password:") true =
      (some (str "p"), none) :=
  (claim_next_prompts_amended (LoginAuth (str "u") (str "p") (str "h"))
    (str "Password:")).2.1 (by decide)

/-- Claim C6: `NewMessage` produces a message whose body part carries
Content-Type `text/plain` with charset utf-8 and `NewHTMLMessage` one whose
body part carries `text/html` with charset utf-8; in both cases the
serialized body equals the Body field followed by CRLF. -/
theorem claim_new_message_body_part (t subject body : Str) :
    (NewMessage subject body).BodyContentType = str "text/plain" ∧
    (NewHTMLMessage subject body).BodyContentType = str "text/html" ∧
    (NewMessage subject body).Bytes t =
      headersPart t (NewMessage subject body) ++
      str "Content-Type: " ++ str "text/plain" ++ str "; charset=utf-8\r\n\r\n" ++
      (body ++ str "\r\n") ∧
    (NewHTMLMessage subject body).Bytes t =
      headersPart t (NewHTMLMessage subject body) ++
      str "Content-Type: " ++ str "text/html" ++ str "; charset=utf-8\r\n\r\n" ++
      (body ++ str "\r\n") := by
  refine ⟨rfl, rfl, ?_, ?_⟩ <;>
    simp [Message.Bytes, NewMessage, NewHTMLMessage, newMessage, List.append_assoc]

/-- Claim C7: every attachment is serialized in exactly one of two ways
depending on its Inline flag: an inline attachment is written with its raw
bytes unencoded under Content-Disposition inline, a non-inline attachment
base64-encoded under Content-Transfer-Encoding base64 and
Content-Disposition attachment. -/
theorem claim_attachment_two_ways (t : Str) (m : Message) (kv : Str × Attachment)
    (hkv : kv ∈ m.Attachments) :
    (kv.2.Inline = true →
      ∃ pre post, m.Bytes t = pre ++
        (str "Content-Type: message/rfc822\r\n" ++
         (str "Content-Disposition: inline; filename=\"" ++ kv.2.Filename ++
          str "\"\r\n\r\n") ++ kv.2.Data.map Char.ofNat) ++ post) ∧
    (kv.2.Inline = false →
      ∃ pre post, m.Bytes t = pre ++
        (str "Content-Type: application/octet-stream\r\n" ++
         str "Content-Transfer-Encoding: base64\r\n" ++
         (str "Content-Disposition: attachment; filename=\"" ++ kv.2.Filename ++
          str "\"\r\n\r\n") ++ wrapLoop (base64Encode kv.2.Data) 0) ++ post) := by
  obtain ⟨p, q, hpq⟩ := bytes_attachment_infix t m kv hkv
  constructor
  · intro hinl
    refine ⟨p, q, ?_⟩
    rw [hpq]
    simp [attachmentBody, hinl]
  · intro hinl
    refine ⟨p, q, ?_⟩
    rw [hpq]
    simp [attachmentBody, hinl]

/-- Witness for claim C7 at a concrete message with one inline
attachment. -/
theorem claim_attachment_two_ways_witness :
    ∃ pre post, msgWithInline.Bytes (str "DATE") = pre ++
      (str "Content-Type: message/rfc822\r\n" ++
       (str "Content-Disposition: inline; filename=\"" ++ str "i.txt" ++
        str "\"\r\n\r\n") ++ ([104, 105] : List Nat).map Char.ofNat) ++ post :=
  (claim_attachment_two_ways (str "DATE") msgWithInline
    (str "i.txt", ⟨str "i.txt", [104, 105], true⟩) (by decide)).1 rfl

/-- Claim C8: `Tolist` returns exactly the concatenation of To, Cc and Bcc
in that order with nothing added, dropped or deduplicated, and a successful
`Send` issues one Rcpt per element of that concatenation. -/
theorem claim_tolist_rcpt (m : Message) :
    m.Tolist = m.To ++ m.Cc ++ m.Bcc ∧
    (∀ (srv : SmtpServer) (authSet : Bool),
      (Send srv authSet m).2 = none →
      (Send srv authSet m).1.filter isRcpt = m.Tolist.map SmtpStep.rcpt) := by
  refine ⟨tolist_eq m, ?_⟩
  intro srv authSet h
  rw [send_eq_run] at h ⊢
  rw [runSteps_success srv _ h]
  exact filter_planned srv authSet m

/-- Witness for claim C8 on a fully successful send with one To, Cc and Bcc
recipient each. -/
theorem claim_tolist_rcpt_witness :
    (Send srvOk true msgRecipients).1.filter isRcpt =
      msgRecipients.Tolist.map SmtpStep.rcpt :=
  (claim_tolist_rcpt msgRecipients).2 srvOk true (by decide)

/-- Claim C9: two messages that differ only in their Bcc field serialize
(at the same time instant) to identical bytes — Bcc recipients never appear
in the output — even though `Tolist` still includes them for RCPT
delivery. -/
theorem claim_bcc_invisible (t : Str) (m : Message) (bcc2 : List Str) :
    ({ m with Bcc := bcc2 } : Message).Bytes t = m.Bytes t ∧
    ({ m with Bcc := bcc2 } : Message).Tolist = m.To ++ m.Cc ++ bcc2 := by
  constructor
  · rfl
  · simp [Message.Tolist, foldl_append_singleton, List.append_assoc]

/-- Claim C10: starting from `NewMessage` or `NewHTMLMessage`, after any
sequence of successful attach calls every entry of the Attachments map has
its key equal to its value's Filename, which is the base name of some
attached file; keys are unique, and attaching a file whose base name
collides with an earlier one leaves only the later attachment under that
key. -/
theorem claim_attachments_key_filename (subject body : Str) (cs : List AttachCall) :
    (∀ kv ∈ (applyCalls cs (NewMessage subject body)).Attachments,
      kv.1 = kv.2.Filename ∧ ∃ c ∈ cs, kv.1 = basename c.file) ∧
    (∀ kv ∈ (applyCalls cs (NewHTMLMessage subject body)).Attachments,
      kv.1 = kv.2.Filename ∧ ∃ c ∈ cs, kv.1 = basename c.file) ∧
    ((applyCalls cs (NewMessage subject body)).Attachments.map Prod.fst).Nodup ∧
    (∀ (calls : List AttachCall) (c : AttachCall),
      mapLookup (applyCalls (calls ++ [c]) (NewMessage subject body)).Attachments
        (basename c.file) = some ⟨basename c.file, c.data, c.inline⟩) := by
  refine ⟨?_, ?_, ?_, ?_⟩
  · intro kv hkv
    rcases applyCalls_mem cs _ kv hkv with h | ⟨c, hc, hkv2⟩
    · simp [NewMessage, newMessage] at h
    · subst hkv2
      exact ⟨rfl, c, hc, rfl⟩
  · intro kv hkv
    rcases applyCalls_mem cs _ kv hkv with h | ⟨c, hc, hkv2⟩
    · simp [NewHTMLMessage, newMessage] at h
    · subst hkv2
      exact ⟨rfl, c, hc, rfl⟩
  · exact applyCalls_keys_nodup cs _ (by simp [NewMessage, newMessage])
  · intro calls c
    exact applyCalls_lookup_last calls c _

/-- Witness for claim C10: attaching `d/a.txt` and then `e/a.txt` leaves the
later attachment under the shared key `a.txt`. -/
theorem claim_attachments_key_filename_witness :
    mapLookup (applyCalls ([⟨str "d/a.txt", false, [1]⟩] ++ [⟨str "e/a.txt", true, [2]⟩])
        (NewMessage (str "s") (str "b"))).Attachments
      (basename (str "e/a.txt")) = some ⟨basename (str "e/a.txt"), [2], true⟩ :=
  (claim_attachments_key_filename (str "s") (str "b") []).2.2.2
    [⟨str "d/a.txt", false, [1]⟩] ⟨str "e/a.txt", true, [2]⟩

end Email
